import Mathlib

/-!
# CSV_Analytics — verification of the partitioning-and-analysis pipeline

A shallow embedding of the logic-bearing parts of the repository:

* `csv_splitter_v3.0.py` — operational-day (7AM–7AM) partitioning
  (`calculate_shifted_date`, `split_csv_by_7am_days`, `sanitize_filename`);
* `csv_splitter_v2.1.py` / `csv_splitter_v2.0.py` — the earlier splitter
  (`split_csv_by_day`, its `sanitize_filename` variant);
* `data_processing.py` — the Cleaner (`preprocess_data`: type coercion,
  linear interpolation, centered rolling mean);
* `statistical_analysis.py` — `generate_statistical_summary`,
  `calculate_correlations`;
* `csv_analytics_v1.1.py` — the z-score outlier detector (`detect_outliers`).

Python `datetime`/pandas `Timestamp` values are modelled as integer minutes
since the epoch 1970-01-01 00:00 on the proleptic Gregorian calendar:
`.date()` is floor division by 1440 (the day number) and `.hour` is
`(t mod 1440) / 60`.  Floating point columns are modelled as `List (Option ℚ)`
with `none` playing the role of NaN/NaT; IEEE comparisons against NaN are
false, which the embeddings of the comparison sites encode explicitly.
-/

namespace CSVAnalytics

/-! ## Timestamps (minutes since the epoch) -/

/-- The calendar date of a timestamp, as a day number:
Python `t.date()` is the floor of `t / (24*60)` minutes. -/
def tsDate (t : ℤ) : ℤ := t / 1440

/-- Python `t.hour`: the hour within the day, in `0..23`. -/
def tsHour (t : ℤ) : ℤ := t % 1440 / 60

/-- Day number of a civil (proleptic Gregorian) date, days since 1970-01-01.
Standard days-from-civil conversion, used only to name concrete dates such as
`2024-01-01` in the end-to-end instances. -/
def daysFromCivil (y m d : ℤ) : ℤ :=
  let y1 : ℤ := if m ≤ 2 then y - 1 else y
  let era : ℤ := y1 / 400
  let yoe : ℤ := y1 - era * 400
  let mp : ℤ := (m + 9) % 12
  let doy : ℤ := (153 * mp + 2) / 5 + d - 1
  let doe : ℤ := yoe * 365 + yoe / 4 - yoe / 100 + doy
  era * 146097 + doe - 719468

/-- Build a timestamp (minutes since the epoch) from a civil date and time of
day. -/
def mkTs (y m d hh mi : ℤ) : ℤ := daysFromCivil y m d * 1440 + hh * 60 + mi

/-- `df['c'] = ...` at the schema level: the assignment appends the column
name when absent (pandas column names are unique within a frame). -/
def addColumn (cols : List String) (c : String) : List String :=
  if c ∈ cols then cols else cols ++ [c]

/-- `df.drop(columns=['c'])` at the schema level. -/
def dropColumn (cols : List String) (c : String) : List String :=
  cols.filter (fun x => x ≠ c)

namespace SplitterV3

/-- `csv_splitter_v3.0.py`, `sanitize_filename`:
`''.join(c if c.isalnum() or c in ('-', '_', '.') else '_' for c in filename)`
(Python `str.isalnum` modelled on the ASCII range by `Char.isAlphanum`). -/
def sanitize_filename (s : String) : String :=
  String.mk (s.data.map fun c =>
    if c.isAlphanum ∨ c ∈ (['-', '_', '.'] : List Char) then c else '_')

/-- Schema of the frame persisted for each group by `split_csv_by_7am_days`
(lines 55–63): the frame gains the bookkeeping column `ShiftedDate`, and each
group is written with `group.drop(columns=['ShiftedDate']).to_csv(...,
index=False)`. -/
def persistedGroupColumns (cols : List String) : List String :=
  dropColumn (addColumn cols "ShiftedDate") "ShiftedDate"

/-- `csv_splitter_v3.0.py`, `calculate_shifted_date`: `None` for a null
(`NaT`) timestamp; otherwise the date of `timestamp - timedelta(days=1)`
when `timestamp.hour < 7`, else the date of `timestamp`. -/
def calculate_shifted_date : Option ℤ → Option ℤ
  | none => none
  | some t => if tsHour t < 7 then some (tsDate (t - 1440)) else some (tsDate t)

/-- One CSV row after `pd.to_datetime(df['Timestamp'], errors='coerce')`:
`ts` is the parsed timestamp (`none` = `NaT` for an unparseable value) and
`data` holds the remaining cell payload of the row. -/
structure Row where
  ts : Option ℤ
  data : List ℚ
deriving DecidableEq

/-- The `ShiftedDate` value of a row:
`df['ShiftedDate'] = df['Timestamp'].apply(calculate_shifted_date)`. -/
def keyOf (r : Row) : Option ℤ := calculate_shifted_date r.ts

/-- Ordering of rows by their timestamp, used by
`df.sort_values('Timestamp')` (`NaT` rows are removed before sorting). -/
def tsLE (a b : Row) : Prop := a.ts.getD 0 ≤ b.ts.getD 0

instance : DecidableRel tsLE := fun a b => by unfold tsLE; infer_instance

instance : IsTotal Row tsLE := ⟨fun _ _ => le_total _ _⟩

instance : IsTrans Row tsLE := ⟨fun _ _ _ h h2 => le_trans h h2⟩

/-- The rows kept after `df.dropna(subset=['ShiftedDate'])`: the shifted date
is null exactly when the timestamp is null. -/
def validRows (rows : List Row) : List Row := rows.filter (fun r => r.ts.isSome)

/-- The valid rows after `df.sort_values('Timestamp')`. -/
def sortedValid (rows : List Row) : List Row :=
  List.insertionSort tsLE (validRows rows)

/-- The distinct `ShiftedDate` keys present in the sorted frame:
the group labels of `df.groupby('ShiftedDate')`. -/
def groupKeys (rows : List Row) : List (Option ℤ) :=
  ((sortedValid rows).map keyOf).dedup

/-- `csv_splitter_v3.0.py`, `split_csv_by_7am_days` (the grouping part, lines
42–55): drop rows with a null shifted date, sort by timestamp, and group by
`ShiftedDate`.  Each emitted group is the pair of its key and its rows in
frame order. -/
def split_csv_by_7am_days (rows : List Row) : List (Option ℤ × List Row) :=
  (groupKeys rows).map
    (fun k => (k, (sortedValid rows).filter (fun r => keyOf r = k)))

/-- The rows set aside as `skipped_rows` (invalid timestamps). -/
def skipped_rows (rows : List Row) : List Row :=
  rows.filter (fun r => !r.ts.isSome)

end SplitterV3

namespace SplitterV20

/-- `csv_splitter_v2.0.py` (and identically `v2.1`), `sanitize_filename`:
`''.join(c if c.isalnum() or c in ('-', '_') else '_' for c in
filename.replace('/', '-'))` — slashes are first replaced by hyphens, and
`.` is NOT among the retained characters. -/
def sanitize_filename (s : String) : String :=
  String.mk ((s.data.map fun c => if c = '/' then '-' else c).map fun c =>
    if c.isAlphanum ∨ c ∈ (['-', '_'] : List Char) then c else '_')

end SplitterV20

namespace SplitterV21

/-- Schema of the group files persisted by `csv_splitter_v2.1.py`,
`split_csv_by_day` (lines 50–68): the frame is read with
`parse_dates=['Date']`, `set_index('Date')` moves `Date` from the columns to
the index, the derived key column `df['day_group']` is appended, and each
group of `df.groupby('day_group')` is written by `group.to_csv(output_path)`
with its index — so the written header is `Date`, then the remaining
original columns, then the `day_group` column: the partition key is not
dropped before writing. -/
def persistedGroupColumns (cols : List String) : List String :=
  "Date" :: addColumn (dropColumn cols "Date") "day_group"

end SplitterV21

namespace AnalyticsV11

/-- `np.mean` over a full column, as used by `scipy.stats.zscore` with its
default `nan_policy='propagate'`: NaN (`none`) when the column is empty or
contains any NaN, otherwise the arithmetic mean. -/
def npMean (xs : List (Option ℚ)) : Option ℚ :=
  if xs.isEmpty || xs.any (fun x => x.isNone) then none
  else some ((xs.filterMap id).sum / xs.length)

/-- The population variance (`scipy.stats.zscore` default `ddof=0`) over the
full column, NaN-propagating like `npMean`. -/
def npVar (xs : List (Option ℚ)) : Option ℚ :=
  match npMean xs with
  | none => none
  | some m => some (((xs.filterMap id).map (fun x => (x - m) ^ 2)).sum / xs.length)

/-- The cell-level comparison `np.abs(stats.zscore(df[column])) > threshold`,
encoded without square roots: with mean `m` and variance `v`, the z-score of a
valid cell `x` is `(x - m) / sqrt v`, so for `v > 0` the comparison
`|z| > t` is `t < 0 ∨ (x - m)² > t²·v`; when `v = 0` the z-score is the float
`0/0 = NaN`, and every IEEE comparison involving NaN (NaN cell, NaN mean, NaN
variance) is false. -/
def absZscoreGt (x m v : Option ℚ) (t : ℚ) : Bool :=
  match x, m, v with
  | some xv, some mv, some vv =>
    if vv = 0 then false
    else if t < 0 then true
    else decide ((xv - mv) ^ 2 > t ^ 2 * vv)
  | _, _, _ => false

/-- `csv_analytics_v1.1.py`, `detect_outliers`, for one numeric column:
`z_scores = np.abs(stats.zscore(df[column]))` followed by
`df[column][z_scores > threshold]`.  Returns the flagged cells in frame
order. -/
def detect_outliers (xs : List (Option ℚ)) (t : ℚ) : List (Option ℚ) :=
  xs.filter (fun x => absZscoreGt x (npMean xs) (npVar xs) t)

end AnalyticsV11

namespace DataProcessing

/-- A column of a loaded frame: a float column with NaN as `none`, or an
object (string) column with `None` as `none`. -/
inductive Col where
  | num : List (Option ℚ) → Col
  | obj : List (Option String) → Col
deriving DecidableEq

/-- The number of rows of a column. -/
def Col.length : Col → ℕ
  | num xs => xs.length
  | obj cs => cs.length

/-- A loaded frame: `index` is the `Date` index set by `load_data`, `cols`
the named columns, all of the same length as the index. -/
structure DF where
  index : List ℤ
  cols : List (String × Col)

/-- `pd.to_numeric(df[col])` inside `try/except ValueError` for one column,
over a scalar parser `parse`: missing cells become NaN; if any non-null cell
fails to parse the conversion raises and the column is kept as object (the
`except` branch is a per-column no-op); numeric columns are not object
columns and are untouched. -/
def coerceCol (parse : String → Option ℚ) : Col → Col
  | Col.num xs => Col.num xs
  | Col.obj cs =>
    if cs.all (fun c => match c with | none => true | some s => (parse s).isSome)
    then Col.num (cs.map (fun c => c.bind parse))
    else Col.obj cs

/-- The first valid entry of a column suffix, with its offset. -/
def firstValid : List (Option ℚ) → Option (ℕ × ℚ)
  | [] => none
  | some v :: _ => some (0, v)
  | none :: rest => (firstValid rest).map (fun p => (p.1 + 1, p.2))

/-- The last valid entry strictly before a position, with its position. -/
def prevValid (xs : List (Option ℚ)) : ℕ → Option (ℕ × ℚ)
  | 0 => none
  | j + 1 =>
    match xs.getD j none with
    | some v => some (j, v)
    | none => prevValid xs j

/-- The first valid entry strictly after a position, with its position. -/
def nextValid (xs : List (Option ℚ)) (i : ℕ) : Option (ℕ × ℚ) :=
  (firstValid (xs.drop (i + 1))).map (fun p => (i + 1 + p.1, p.2))

/-- `Series.interpolate()` with the default positional `linear` method: a
missing cell with valid entries on both sides is filled linearly between the
nearest ones; a missing cell after the last valid entry is filled with that
entry; leading missing cells stay missing (default `limit_direction`
`forward`).  Valid cells are unchanged and the length is preserved. -/
def interpolate (xs : List (Option ℚ)) : List (Option ℚ) :=
  (List.range xs.length).map fun i =>
    match xs.getD i none with
    | some v => some v
    | none =>
      match prevValid xs i, nextValid xs i with
      | some jv, some kv =>
        some (jv.2 + (kv.2 - jv.2) * ((i : ℚ) - jv.1) / ((kv.1 : ℚ) - jv.1))
      | some jv, none => some jv.2
      | none, _ => none

/-- `rolling(window=5, center=True, min_periods=1).mean()` for one column: at
row `i` the centered window covers rows `i-2 .. i+2` clipped to the frame;
the mean is taken over the valid cells in the window, NaN when there are
none. -/
def rollingMean5 (xs : List (Option ℚ)) : List (Option ℚ) :=
  (List.range xs.length).map fun i =>
    let w := ((xs.drop (i - 2)).take (i + 3 - (i - 2))).filterMap id
    if w.length = 0 then none else some (w.sum / w.length)

/-- `data_processing.py`, `preprocess_data`: numeric coercion of object
columns, then linear interpolation of every numeric column, then the centered
window-5 rolling mean of every numeric column (`df.infer_objects` is a dtype
refinement with no effect on the values). -/
def preprocess_data (parse : String → Option ℚ) (df : DF) : DF :=
  { index := df.index
    cols := df.cols.map fun nc =>
      (nc.1,
        match coerceCol parse nc.2 with
        | Col.num xs => Col.num (rollingMean5 (interpolate xs))
        | Col.obj cs => Col.obj cs) }

/-- The gap-filling step of `preprocess_data` alone:
`df[numeric_df.columns] = numeric_df.interpolate()`. -/
def interpolateStep (df : DF) : DF :=
  { index := df.index
    cols := df.cols.map fun nc =>
      (nc.1,
        match nc.2 with
        | Col.num xs => Col.num (interpolate xs)
        | Col.obj cs => Col.obj cs) }

end DataProcessing

namespace StatAnalysis

/-- The arithmetic mean of a complete numeric column. -/
def mean (xs : List ℚ) : ℚ := xs.sum / xs.length

/-- The centered cross moment `Σ (xᵢ − x̄)(yᵢ − ȳ)` over the `n` rows of the
frame, the shared numerator/denominator core of `df.corr()` (the `ddof`
normalisations of covariance and standard deviation cancel in the
correlation ratio). -/
def sCross (n : ℕ) (xs ys : List ℚ) : ℚ :=
  ∑ i ∈ Finset.range n, (xs.getD i 0 - mean xs) * (ys.getD i 0 - mean ys)

/-- One entry of `df.corr()`, in an exact signed-square encoding: the float
entry is `r = S_xy / sqrt (S_xx · S_yy)`, whose square root is irrational in
general, so the encoding carries `sgn r · r² = S_xy·|S_xy| / (S_xx·S_yy)`
instead — a strictly monotone bijection of `[-1, 1]` onto itself, under which
symmetry, `r = 1`, and `r ∈ [-1, 1]` are each preserved and reflected.  When
`S_xx·S_yy = 0` (a zero-variance channel) the float computation is `0/0` and
pandas reports NaN, encoded as `none`. -/
def corrE (n : ℕ) (xs ys : List ℚ) : Option ℚ :=
  if sCross n xs xs * sCross n ys ys = 0 then none
  else some (sCross n xs ys * |sCross n xs ys| / (sCross n xs xs * sCross n ys ys))

/-- `statistical_analysis.py`, `calculate_correlations`:
`df[numeric_cols].corr()` as the square matrix of pairwise entries over the
numeric channels of an `n`-row frame. -/
def calculate_correlations (n : ℕ) (cols : List (List ℚ)) :
    List (List (Option ℚ)) :=
  cols.map fun x => cols.map fun y => corrE n x y

/-- The valid (non-NaN) values of a column, in frame order. -/
def validVals (xs : List (Option ℚ)) : List ℚ := xs.filterMap id

/-- The valid values sorted ascending, as the quantiles of `describe` use
them. -/
def sortedVals (xs : List (Option ℚ)) : List ℚ :=
  List.insertionSort (· ≤ ·) (validVals xs)

/-- `Series.quantile(p)` with the default linear interpolation, over the
sorted valid values; NaN for a column with no valid values. -/
def quantile (vs : List ℚ) (p : ℚ) : Option ℚ :=
  if vs.isEmpty then none
  else
    let h : ℚ := p * ((vs.length : ℚ) - 1)
    let lo : ℕ := (Rat.floor h).toNat
    let lov := vs.getD lo 0
    let hiv := vs.getD (min (lo + 1) (vs.length - 1)) 0
    some (lov + (h - (lo : ℚ)) * (hiv - lov))

/-- Float subtraction with NaN propagation on either side. -/
def optSub : Option ℚ → Option ℚ → Option ℚ
  | some a, some b => some (a - b)
  | _, _ => none

/-- One column of `df.describe()` plus the derived `range` row.  `count` is
the number of valid values (always a genuine number in pandas, never NaN).
`std` records the sample variance (`ddof = 1`) — the radicand of the reported
standard deviation, whose square root is irrational in general; it is `none`
exactly when pandas reports NaN (fewer than two valid values), which is all
the claims here depend on. -/
structure StatSummary where
  count : ℚ
  mean : Option ℚ
  std : Option ℚ
  min : Option ℚ
  q25 : Option ℚ
  q50 : Option ℚ
  q75 : Option ℚ
  max : Option ℚ
  range : Option ℚ
deriving DecidableEq

/-- `statistical_analysis.py`, `generate_statistical_summary` for one numeric
column: `df[numeric_cols].describe()` followed by
`summary.loc['range'] = summary.loc['max'] - summary.loc['min']`. -/
def generate_statistical_summary (xs : List (Option ℚ)) : StatSummary :=
  let vs := sortedVals xs
  let n := vs.length
  { count := n
    mean := if vs.isEmpty then none else some (vs.sum / (n : ℚ))
    std :=
      if n < 2 then none
      else some ((vs.map (fun v => (v - vs.sum / (n : ℚ)) ^ 2)).sum / ((n : ℚ) - 1))
    min := vs.head?
    q25 := quantile vs (1/4)
    q50 := quantile vs (1/2)
    q75 := quantile vs (3/4)
    max := vs.getLast?
    range := optSub vs.getLast? vs.head? }

end StatAnalysis

end CSVAnalytics

open CSVAnalytics CSVAnalytics.SplitterV3 CSVAnalytics.AnalyticsV11 CSVAnalytics.DataProcessing CSVAnalytics.StatAnalysis

/-- Splitting a list by a boolean predicate is a permutation of the list. -/
theorem filter_not_append_perm {α : Type} (p : α → Bool) (l : List α) :
    List.Perm (l.filter p ++ l.filter (fun a => !p a)) l := by
  induction l with
  | nil => simp
  | cons a l ih =>
    by_cases h : p a
    · simpa [List.filter_cons, h] using ih.cons a
    · simp only [List.filter_cons, h, Bool.not_false, if_neg, Bool.false_eq_true,
        not_false_eq_true, if_pos]
      exact List.perm_middle.trans (ih.cons a)

/-- Grouping a list by a key function over a duplicate-free list of keys that
covers every element yields a permutation of the list: the generic core of
the partition-cover property. -/
theorem flatten_filter_key_perm {α β : Type} [DecidableEq β] (f : α → β) :
    ∀ ks : List β, ks.Nodup → ∀ l : List α, (∀ x ∈ l, f x ∈ ks) →
      List.Perm (ks.map (fun k => l.filter (fun x => f x = k))).flatten l := by
  intro ks
  induction ks with
  | nil =>
    intro _ l h
    match l with
    | [] => simp
    | a :: l => exact absurd (h a (List.mem_cons_self a l)) (List.not_mem_nil _)
  | cons k ks ih =>
    intro hnd l hmem
    obtain ⟨hk, hks⟩ := List.nodup_cons.mp hnd
    simp only [List.map_cons, List.flatten_cons]
    have hrw : ks.map (fun j => l.filter (fun x => decide (f x = j)))
        = ks.map (fun j => (l.filter (fun x => !decide (f x = k))).filter
            (fun x => decide (f x = j))) := by
      refine List.map_congr_left fun j hj => ?_
      rw [List.filter_filter]
      refine (List.filter_congr fun x _ => ?_).symm
      by_cases h : f x = j
      · have hjk : j ≠ k := fun e => hk (e ▸ hj)
        have hne : ¬f x = k := fun e => hjk (h.symm.trans e)
        simp [h, hne, hjk]
      · simp [h]
    rw [show (fun x => decide (f x = k)) = (fun x => decide (f x = k)) from rfl, hrw]
    have hmem' : ∀ x ∈ l.filter (fun x => !decide (f x = k)), f x ∈ ks := by
      intro x hx
      have hxl := (List.mem_filter.mp hx).1
      have hnk := (List.mem_filter.mp hx).2
      simp only [Bool.not_eq_eq_eq_not, Bool.not_true, decide_eq_false_iff_not] at hnk
      exact (List.mem_cons.mp (hmem x hxl)).resolve_left hnk
    exact (((ih hks _ hmem').append_left _).trans (filter_not_append_perm _ l))

/-- On a duplicate-free list, exactly one element satisfies equality with a
given member. -/
theorem countP_eq_one_of_nodup_mem {β : Type} [DecidableEq β] {l : List β} {a : β}
    (h : l.Nodup) (ha : a ∈ l) : l.countP (fun k => decide (a = k)) = 1 := by
  induction l with
  | nil => cases ha
  | cons b l ih =>
    obtain ⟨hb, hl⟩ := List.nodup_cons.mp h
    rcases List.mem_cons.mp ha with rfl | ha'
    · rw [List.countP_cons_of_pos _ _ (by simp)]
      have hz : l.countP (fun k => decide (a = k)) = 0 := by
        rw [List.countP_eq_zero]
        intro x hx
        simp only [decide_eq_true_eq]
        exact fun e => hb (e ▸ hx)
      omega
    · have hne : ¬a = b := fun e => hb (e ▸ ha')
      rw [List.countP_cons_of_neg _ _ (by simp [hne])]
      exact ih hl ha'

/-- C2: operational-day partitioning is a total disjoint cover of the valid
records: the concatenation of all emitted groups is a permutation of the valid
rows (union equals the valid records, no duplicates), no emitted group is
empty, rows within each group are in timestamp-ascending order, and every
valid row lies in exactly one emitted group. -/
theorem C2_partition_total_disjoint_cover (rows : List Row) :
    List.Perm ((split_csv_by_7am_days rows).map Prod.snd).flatten (validRows rows) ∧
    (∀ g ∈ split_csv_by_7am_days rows, g.2 ≠ []) ∧
    (∀ g ∈ split_csv_by_7am_days rows, List.Sorted tsLE g.2) ∧
    (∀ r ∈ validRows rows,
      (split_csv_by_7am_days rows).countP (fun g => decide (r ∈ g.2)) = 1) := by
  have hperm : List.Perm (sortedValid rows) (validRows rows) :=
    List.perm_insertionSort _ _
  have hmemkeys : ∀ x ∈ sortedValid rows, keyOf x ∈ groupKeys rows :=
    fun x hx => List.mem_dedup.mpr (List.mem_map_of_mem keyOf hx)
  refine ⟨?_, ?_, ?_, ?_⟩
  · have hmap : (split_csv_by_7am_days rows).map Prod.snd
        = (groupKeys rows).map
            (fun k => (sortedValid rows).filter (fun r => keyOf r = k)) := by
      simp [split_csv_by_7am_days, List.map_map, Function.comp]
    rw [hmap]
    exact (flatten_filter_key_perm keyOf (groupKeys rows) (List.nodup_dedup _)
      (sortedValid rows) hmemkeys).trans hperm
  · rintro ⟨k, g⟩ hg
    obtain ⟨k', hk', hpair⟩ := List.mem_map.mp hg
    obtain ⟨rfl, rfl⟩ : k' = k ∧ (sortedValid rows).filter (fun r => keyOf r = k') = g :=
      ⟨congrArg Prod.fst hpair, congrArg Prod.snd hpair⟩
    obtain ⟨r, hr, hkey⟩ := List.mem_map.mp (List.mem_dedup.mp hk')
    exact List.ne_nil_of_mem (List.mem_filter.mpr ⟨hr, by simp [hkey]⟩)
  · rintro ⟨k, g⟩ hg
    obtain ⟨k', _, hpair⟩ := List.mem_map.mp hg
    obtain ⟨rfl, rfl⟩ : k' = k ∧ (sortedValid rows).filter (fun r => keyOf r = k') = g :=
      ⟨congrArg Prod.fst hpair, congrArg Prod.snd hpair⟩
    exact List.Pairwise.sublist (List.filter_sublist _)
      (List.sorted_insertionSort tsLE (validRows rows))
  · intro r hr
    have hrs : r ∈ sortedValid rows := (List.mem_insertionSort tsLE).mpr hr
    rw [split_csv_by_7am_days, List.countP_map]
    have hcong : ∀ k ∈ groupKeys rows,
        (((fun g : Option ℤ × List Row => decide (r ∈ g.2)) ∘
          (fun k => (k, (sortedValid rows).filter (fun x => keyOf x = k)))) k = true
          ↔ decide (keyOf r = k) = true) := by
      intro k _
      simp only [Function.comp_apply, List.mem_filter, decide_eq_true_eq]
      exact ⟨fun h => h.2, fun h => ⟨hrs, h⟩⟩
    rw [List.countP_congr hcong]
    exact countP_eq_one_of_nodup_mem (List.nodup_dedup _) (hmemkeys r hrs)

/-- Witness for C2 on the two-day synthetic dataset (records at
2024-01-01 06:30 value 10, 2024-01-01 07:30 value 20, and one invalid row):
the hypotheses of the quantified conjuncts are discharged concretely. -/
theorem C2_partition_total_disjoint_cover_witness :
    ((⟨some (mkTs 2024 1 1 6 30), [10]⟩ : Row) ∈
      validRows [⟨some (mkTs 2024 1 1 6 30), [10]⟩,
        ⟨some (mkTs 2024 1 1 7 30), [20]⟩, ⟨none, [0]⟩]) ∧
    (split_csv_by_7am_days [⟨some (mkTs 2024 1 1 6 30), [10]⟩,
        ⟨some (mkTs 2024 1 1 7 30), [20]⟩, ⟨none, [0]⟩]).countP
      (fun g => decide ((⟨some (mkTs 2024 1 1 6 30), [10]⟩ : Row) ∈ g.2)) = 1 :=
  ⟨by decide,
    (C2_partition_total_disjoint_cover [⟨some (mkTs 2024 1 1 6 30), [10]⟩,
        ⟨some (mkTs 2024 1 1 7 30), [20]⟩, ⟨none, [0]⟩]).2.2.2
      ⟨some (mkTs 2024 1 1 6 30), [10]⟩ (by decide)⟩

/-- C1: for every non-null timestamp `t`, the operational-day partition key is
`t`'s calendar date minus one day when `t.hour < 7`, and `t`'s calendar date
otherwise; in particular a record at 2024-01-01 06:30 is keyed to 2023-12-31
and a record at 2024-01-01 07:30 to 2024-01-01. -/
theorem C1_operational_day_key :
    (∀ t : ℤ, calculate_shifted_date (some t) =
      some (if tsHour t < 7 then tsDate t - 1 else tsDate t)) ∧
    calculate_shifted_date (some (mkTs 2024 1 1 6 30)) =
      some (daysFromCivil 2023 12 31) ∧
    calculate_shifted_date (some (mkTs 2024 1 1 7 30)) =
      some (daysFromCivil 2024 1 1) := by
  refine ⟨fun t => ?_, by decide, by decide⟩
  have h : (t - 1440) / 1440 = t / 1440 - 1 := by omega
  simp only [calculate_shifted_date, tsDate, tsHour, h]
  split <;> rfl

/-- A column whose cells are all `some c` is, as a list, a replicate of `c`
after removing the `Option` layer. -/
theorem filterMap_id_of_all_some {c : ℚ} :
    ∀ xs : List (Option ℚ), (∀ y ∈ xs, y = some c) →
      xs.filterMap id = List.replicate xs.length c := by
  intro xs
  induction xs with
  | nil => simp
  | cons a l ih =>
    intro h
    have ha := h a (List.mem_cons_self a l)
    subst ha
    simp only [List.filterMap_cons, id, List.length_cons, List.replicate_succ]
    rw [ih (fun y hy => h y (List.mem_cons_of_mem _ hy))]

/-- C3: z-score outlier detection on a channel whose valid values are all
equal (zero variance) flags nothing, for any threshold — the z-scores are the
float `0/0 = NaN` (or NaN already via a missing cell), never a
division-by-zero failure, and NaN comparisons are false. -/
theorem C3_zero_variance_flags_nothing (xs : List (Option ℚ)) (c t : ℚ)
    (h : ∀ q : ℚ, some q ∈ xs → q = c) :
    detect_outliers xs t = [] := by
  rw [detect_outliers, List.filter_eq_nil_iff]
  intro x hx
  by_cases hnone : xs.any (fun x => x.isNone)
  · have hm : npMean xs = none := by simp [npMean, hnone]
    cases x <;> simp [absZscoreGt, hm]
  · have hall : ∀ y ∈ xs, y = some c := by
      intro y hy
      cases y with
      | none => exact absurd (List.any_eq_true.mpr ⟨none, hy, rfl⟩) hnone
      | some q => exact congrArg some (h q hy)
    have hemp : xs ≠ [] := List.ne_nil_of_mem hx
    have hlen : xs.length ≠ 0 := fun e => hemp (List.eq_nil_of_length_eq_zero e)
    have hn : (xs.length : ℚ) ≠ 0 := Nat.cast_ne_zero.mpr hlen
    have hfm := filterMap_id_of_all_some xs hall
    have hm : npMean xs = some c := by
      rw [npMean, if_neg (by simp [hnone, List.isEmpty_iff, hemp]), hfm]
      rw [List.sum_replicate, nsmul_eq_mul, mul_div_cancel_left₀ c hn]
    have hv : npVar xs = some 0 := by
      simp only [npVar, hm, hfm, List.map_replicate]
      simp
    have hxc := hall x hx
    subst hxc
    simp [absZscoreGt, hm, hv]

/-- Witness for C3: the constant channel `[4, 4, 4]` with threshold 3 yields
an empty flagged set. -/
theorem C3_zero_variance_flags_nothing_witness :
    (∀ q : ℚ, some q ∈ [some (4 : ℚ), some 4, some 4] → q = 4) ∧
    detect_outliers [some (4 : ℚ), some 4, some 4] 3 = [] :=
  ⟨fun q hq => by simpa using hq,
    C3_zero_variance_flags_nothing [some 4, some 4, some 4] 4 3
      (fun q hq => by simpa using hq)⟩

/-- C10 (implicit): in the v1.1 z-score detector, which computes z-scores over
the full column without excluding missing values, any channel containing at
least one missing value yields an empty flagged set — the NaN propagates
through mean and std, making every z-score NaN — no matter how extreme the
other values are. -/
theorem C10_missing_value_disables_detection (xs : List (Option ℚ)) (t : ℚ)
    (h : none ∈ xs) : detect_outliers xs t = [] := by
  have hm : npMean xs = none := by
    have hany : xs.any (fun x => x.isNone) = true := List.any_eq_true.mpr ⟨none, h, rfl⟩
    simp [npMean, hany]
  rw [detect_outliers, List.filter_eq_nil_iff]
  intro x hx
  cases x <;> simp [absZscoreGt, hm]

/-- Witness for C10: a channel with one missing cell and an extreme value
`10⁶` among small values flags nothing at threshold 3. -/
theorem C10_missing_value_disables_detection_witness :
    none ∈ [some (0 : ℚ), some 0, some 1000000, none] ∧
    detect_outliers [some (0 : ℚ), some 0, some 1000000, none] 3 = [] :=
  ⟨by simp,
    C10_missing_value_disables_detection [some 0, some 0, some 1000000, none] 3
      (by simp)⟩

/-- `interpolate` preserves the column length. -/
theorem interpolate_length (xs : List (Option ℚ)) :
    (interpolate xs).length = xs.length := by
  simp [interpolate]

/-- `rollingMean5` preserves the column length. -/
theorem rollingMean5_length (xs : List (Option ℚ)) :
    (rollingMean5 xs).length = xs.length := by
  simp [rollingMean5]

/-- Numeric coercion preserves the column length. -/
theorem coerceCol_length (parse : String → Option ℚ) (c : Col) :
    (coerceCol parse c).length = c.length := by
  cases c with
  | num xs => rfl
  | obj cs =>
    rw [coerceCol]
    split
    · simp [Col.length]
    · rfl

/-- C4: the Cleaner returns a frame with the same row count, the same column
schema (names, in order), the same row order and unchanged timestamps as the
input — the index is untouched and every column keeps its length, so no rows
are dropped at the boundaries by smoothing. -/
theorem C4_cleaner_preserves_shape (parse : String → Option ℚ)
    (df : DataProcessing.DF) :
    (preprocess_data parse df).index = df.index ∧
    (preprocess_data parse df).cols.map (fun nc => nc.1)
      = df.cols.map (fun nc => nc.1) ∧
    (preprocess_data parse df).cols.map (fun nc => nc.2.length)
      = df.cols.map (fun nc => nc.2.length) := by
  refine ⟨rfl, ?_, ?_⟩
  · rw [preprocess_data, List.map_map]
    exact List.map_congr_left fun nc _ => rfl
  · rw [preprocess_data, List.map_map]
    refine List.map_congr_left fun nc _ => ?_
    show (match coerceCol parse nc.2 with
      | Col.num xs => Col.num (rollingMean5 (interpolate xs))
      | Col.obj cs => Col.obj cs).length = nc.2.length
    have hc := coerceCol_length parse nc.2
    cases hcc : coerceCol parse nc.2 with
    | num xs =>
      rw [hcc] at hc
      simpa [Col.length, rollingMean5_length, interpolate_length] using hc
    | obj cs =>
      rw [hcc] at hc
      exact hc

/-- Interpolation is the identity on a column with no missing values. -/
theorem interpolate_of_all_some {xs : List (Option ℚ)}
    (h : ∀ x ∈ xs, x.isSome) : interpolate xs = xs := by
  apply List.ext_getElem (by simp [interpolate])
  intro i h1 h2
  simp only [interpolate, List.getElem_map, List.getElem_range]
  rw [List.getD_eq_getElem xs none h2]
  cases hx : xs[i] with
  | some v => rfl
  | none =>
    have := h xs[i] (List.getElem_mem h2)
    rw [hx] at this
    cases this

/-- C5: on a dataset with no missing numeric values the gap-filling step is
the identity, and hence applying the interpolation step twice equals applying
it once. -/
theorem C5_interpolation_noop_idempotent (df : DataProcessing.DF)
    (h : ∀ nc ∈ df.cols, ∀ xs, nc.2 = Col.num xs → ∀ x ∈ xs, x.isSome) :
    interpolateStep df = df ∧
    interpolateStep (interpolateStep df) = interpolateStep df := by
  have hid : interpolateStep df = df := by
    rw [interpolateStep]
    cases df with
    | mk index cols =>
      simp only [DF.mk.injEq, true_and]
      have : cols.map (fun nc =>
          (nc.1, match nc.2 with
            | Col.num xs => Col.num (interpolate xs)
            | Col.obj cs => Col.obj cs)) = cols.map id := by
        refine List.map_congr_left fun nc hnc => ?_
        cases nc with
        | mk n c =>
          cases c with
          | num xs =>
            have := interpolate_of_all_some (h (n, Col.num xs) hnc xs rfl)
            simp [this]
          | obj cs => rfl
      rw [this, List.map_id]
  exact ⟨hid, by rw [hid]; exact hid⟩

/-- Witness for C5 on a two-row frame with one complete numeric column. -/
theorem C5_interpolation_noop_idempotent_witness :
    interpolateStep ⟨[0, 1], [("A", Col.num [some 1, some 2])]⟩
      = (⟨[0, 1], [("A", Col.num [some 1, some 2])]⟩ : DataProcessing.DF) :=
  (C5_interpolation_noop_idempotent ⟨[0, 1], [("A", Col.num [some 1, some 2])]⟩
    (by
      intro nc hnc xs hxs x hx
      rw [List.mem_singleton.mp hnc] at hxs
      cases hxs
      rcases List.mem_cons.mp hx with rfl | hx
      · rfl
      · rcases List.mem_cons.mp hx with rfl | hx
        · rfl
        · cases hx)).1

/-- The centered cross moment is symmetric in its two columns. -/
theorem sCross_comm (n : ℕ) (xs ys : List ℚ) : sCross n xs ys = sCross n ys xs :=
  Finset.sum_congr rfl fun _ _ => mul_comm _ _

/-- The centered self moment is a sum of squares, hence nonnegative. -/
theorem sCross_self_nonneg (n : ℕ) (xs : List ℚ) : 0 ≤ sCross n xs xs :=
  Finset.sum_nonneg fun _ _ => mul_self_nonneg _

/-- Correlation entries are symmetric. -/
theorem corrE_comm (n : ℕ) (xs ys : List ℚ) : corrE n xs ys = corrE n ys xs := by
  unfold corrE
  rw [sCross_comm n ys xs, mul_comm (sCross n ys ys) (sCross n xs xs)]

/-- A diagonal correlation entry is 1 when the channel has nonzero
self moment. -/
theorem corrE_diag (n : ℕ) (xs : List ℚ) (h : sCross n xs xs ≠ 0) :
    corrE n xs xs = some 1 := by
  have hpos : 0 < sCross n xs xs := (sCross_self_nonneg n xs).lt_of_ne (Ne.symm h)
  rw [corrE, if_neg (mul_ne_zero h h), abs_of_pos hpos,
    div_self (mul_ne_zero h h)]

/-- Cauchy–Schwarz: every defined correlation entry lies in `[-1, 1]`. -/
theorem corrE_bound (n : ℕ) (xs ys : List ℚ) (hx : sCross n xs xs ≠ 0)
    (hy : sCross n ys ys ≠ 0) :
    ∃ q, corrE n xs ys = some q ∧ -1 ≤ q ∧ q ≤ 1 := by
  have hxpos : 0 < sCross n xs xs := (sCross_self_nonneg n xs).lt_of_ne (Ne.symm hx)
  have hypos : 0 < sCross n ys ys := (sCross_self_nonneg n ys).lt_of_ne (Ne.symm hy)
  have hD : 0 < sCross n xs xs * sCross n ys ys := mul_pos hxpos hypos
  have hxx : sCross n xs xs = ∑ i ∈ Finset.range n, (xs.getD i 0 - mean xs) ^ 2 :=
    Finset.sum_congr rfl fun _ _ => (pow_two _).symm
  have hyy : sCross n ys ys = ∑ i ∈ Finset.range n, (ys.getD i 0 - mean ys) ^ 2 :=
    Finset.sum_congr rfl fun _ _ => (pow_two _).symm
  have hcs : sCross n xs ys ^ 2 ≤ sCross n xs xs * sCross n ys ys := by
    rw [hxx, hyy]
    exact Finset.sum_mul_sq_le_sq_mul_sq (Finset.range n) _ _
  refine ⟨sCross n xs ys * |sCross n xs ys| / (sCross n xs xs * sCross n ys ys),
    by rw [corrE, if_neg (ne_of_gt hD)], ?_, ?_⟩
  · rw [le_div_iff₀ hD]
    rcases abs_cases (sCross n xs ys) with ⟨he, _⟩ | ⟨he, _⟩ <;> rw [he] <;>
      nlinarith [hcs, hD, sq_nonneg (sCross n xs ys)]
  · rw [div_le_one hD]
    rcases abs_cases (sCross n xs ys) with ⟨he, _⟩ | ⟨he, _⟩ <;> rw [he] <;>
      nlinarith [hcs, hD, sq_nonneg (sCross n xs ys)]

/-- Resolving one entry of the correlation matrix. -/
theorem correlations_entry (n : ℕ) (cols : List (List ℚ)) (i j : ℕ)
    (hi : i < cols.length) (hj : j < cols.length) :
    ((calculate_correlations n cols).getD i []).getD j none
      = corrE n (cols.getD i []) (cols.getD j []) := by
  unfold calculate_correlations
  rw [List.getD_eq_getElem (cols.map fun x => cols.map fun y => corrE n x y) []
    (by simpa using hi)]
  simp only [List.getElem_map]
  rw [List.getD_eq_getElem (cols.map fun y => corrE n cols[i] y) none
    (by simpa using hj)]
  simp only [List.getElem_map]
  rw [List.getD_eq_getElem cols [] hi, List.getD_eq_getElem cols [] hj]

/-- C6 (amended): for a frame of `n` rows whose numeric channels each have
nonzero variance, the correlation matrix is symmetric, every diagonal entry
is 1, and every entry lies in `[-1, 1]` (in the signed-square encoding of
`corrE`).  The original claim is refuted at a zero-variance channel by
`C6_correlation_matrix_counterexample`, where pandas produces NaN. -/
theorem C6_correlation_matrix_amended (n : ℕ) (cols : List (List ℚ))
    (hvar : ∀ c ∈ cols, sCross n c c ≠ 0) :
    (∀ i j, i < cols.length → j < cols.length →
      ((calculate_correlations n cols).getD i []).getD j none
        = ((calculate_correlations n cols).getD j []).getD i none) ∧
    (∀ i, i < cols.length →
      ((calculate_correlations n cols).getD i []).getD i none = some 1) ∧
    (∀ i j, i < cols.length → j < cols.length →
      ∃ q, ((calculate_correlations n cols).getD i []).getD j none = some q ∧
        -1 ≤ q ∧ q ≤ 1) := by
  have hmem : ∀ i, i < cols.length → cols.getD i [] ∈ cols := by
    intro i hi
    rw [List.getD_eq_getElem _ _ hi]
    exact List.getElem_mem hi
  refine ⟨?_, ?_, ?_⟩
  · intro i j hi hj
    rw [correlations_entry n cols i j hi hj,
      correlations_entry n cols j i hj hi, corrE_comm]
  · intro i hi
    rw [correlations_entry n cols i i hi hi]
    exact corrE_diag n _ (hvar _ (hmem i hi))
  · intro i j hi hj
    rw [correlations_entry n cols i j hi hj]
    exact corrE_bound n _ _ (hvar _ (hmem i hi)) (hvar _ (hmem j hj))

/-- Counterexample to C6 as stated: the dataset with 2 numeric channels and
2 rows whose first channel is the constant `[5, 5]` has correlation matrix
entry (0,0) equal to NaN (`none`), not 1.0 — `df.corr()` divides `0/0` on a
zero-variance channel. -/
theorem C6_correlation_matrix_counterexample :
    (calculate_correlations 2 [[(5 : ℚ), 5], [1, 2]]).length = 2 ∧
    ((calculate_correlations 2 [[(5 : ℚ), 5], [1, 2]]).getD 0 []).getD 0 none
      = none := by
  constructor
  · rfl
  · rw [correlations_entry 2 _ 0 0 (by norm_num) (by norm_num)]
    have hz : sCross 2 [(5 : ℚ), 5] [5, 5] = 0 := by
      have hm : mean [(5 : ℚ), 5] = 5 := by norm_num [mean]
      simp [sCross, hm, Finset.sum_range_succ]
    rw [show ([[(5 : ℚ), 5], [1, 2]].getD 0 []) = [(5 : ℚ), 5] from rfl, corrE,
      if_pos (by rw [hz, zero_mul])]

/-- Witness for C6 (amended) on the 2-row frame with channels `[1, 2]` and
`[1, 3]`, both of nonzero variance: the (0,0) entry is 1. -/
theorem C6_correlation_matrix_amended_witness :
    (∀ c ∈ [[(1 : ℚ), 2], [1, 3]], sCross 2 c c ≠ 0) ∧
    ((calculate_correlations 2 [[(1 : ℚ), 2], [1, 3]]).getD 0 []).getD 0 none
      = some 1 := by
  have hvar : ∀ c ∈ [[(1 : ℚ), 2], [1, 3]], sCross 2 c c ≠ 0 := by
    intro c hc
    rcases List.mem_cons.mp hc with rfl | hc
    · norm_num [sCross, mean, Finset.sum_range_succ]
    · rcases List.mem_cons.mp hc with rfl | hc
      · norm_num [sCross, mean, Finset.sum_range_succ]
      · cases hc
  exact ⟨hvar,
    (C6_correlation_matrix_amended 2 [[(1 : ℚ), 2], [1, 3]] hvar).2.1 0
      (by norm_num)⟩

/-- A column whose cells are all missing has no valid values. -/
theorem validVals_eq_nil {xs : List (Option ℚ)} (h : ∀ x ∈ xs, x = none) :
    validVals xs = [] := by
  induction xs with
  | nil => rfl
  | cons a l ih =>
    have ha := h a (List.mem_cons_self a l)
    subst ha
    simp only [validVals, List.filterMap_cons, id] at ih ⊢
    exact ih fun x hx => h x (List.mem_cons_of_mem _ hx)

/-- C7 (amended): for a channel with zero valid values, the statistical
summary reports `count = 0` and NaN (`none`) for mean, std, min, max, all
quartiles and the derived range; the computation is total (no crash), but the
NaN values do sit in the returned summary table, and `count` is a genuine
number.  The original claim — every statistic reported as "not available" —
is refuted by `C7_zero_valid_counterexample`. -/
theorem C7_zero_valid_summary_amended (xs : List (Option ℚ))
    (h : ∀ x ∈ xs, x = none) :
    generate_statistical_summary xs =
      { count := 0, mean := none, std := none, min := none, q25 := none,
        q50 := none, q75 := none, max := none, range := none } := by
  have hs : sortedVals xs = [] := by rw [sortedVals, validVals_eq_nil h]; rfl
  rw [generate_statistical_summary, hs]
  rfl

/-- Counterexample to C7 as stated: on the channel `[NaN, NaN]` (zero valid
values) `describe` reports `count = 0` — a genuine number, not a
"not available" marker — while the mean entry of the same summary table is
the float NaN. -/
theorem C7_zero_valid_counterexample :
    (generate_statistical_summary [none, none]).count = 0 ∧
    (generate_statistical_summary [none, none]).mean = none := by
  constructor <;> rfl

/-- Witness for C7 (amended) at the concrete channel `[NaN, NaN]`. -/
theorem C7_zero_valid_summary_amended_witness :
    (∀ x ∈ [(none : Option ℚ), none], x = none) ∧
    generate_statistical_summary [(none : Option ℚ), none] =
      { count := 0, mean := none, std := none, min := none, q25 := none,
        q50 := none, q75 := none, max := none, range := none } :=
  ⟨by simp, C7_zero_valid_summary_amended [none, none] (by simp)⟩

/-- C8 (amended): both sanitizers are deterministic character-wise maps of
the input; in v3.0 each character is kept iff it is alphanumeric or one of
`-`, `_`, `.` and is replaced by `_` otherwise; in v2.0/v2.1, `/` is first
replaced by `-`, only alphanumeric, `-`, `_` are kept (`.` is NOT retained),
and every other character is replaced by `_`.  The original claim — `.` kept
unchanged by the sanitization — fails on the v2.0/v2.1 variant
(`C8_sanitize_filename_counterexample`). -/
theorem C8_sanitize_filename_amended (s : String) :
    (SplitterV3.sanitize_filename s).data
      = s.data.map (fun c =>
          if c.isAlphanum ∨ c ∈ (['-', '_', '.'] : List Char) then c else '_') ∧
    (SplitterV20.sanitize_filename s).data
      = s.data.map (fun c =>
          if c = '/' then '-'
          else if c.isAlphanum ∨ c ∈ (['-', '_'] : List Char) then c
          else '_') := by
  constructor
  · rfl
  · simp only [SplitterV20.sanitize_filename, List.map_map]
    refine List.map_congr_left fun c _ => ?_
    by_cases h : c = '/'
    · subst h; rfl
    · simp [Function.comp, h]

/-- Counterexample to C8 as stated: the v2.0/v2.1 sanitizer replaces `.`
with `_` (and `/` with `-`) instead of keeping `.` unchanged. -/
theorem C8_sanitize_filename_counterexample :
    SplitterV20.sanitize_filename "a.b" = "a_b" ∧
    SplitterV20.sanitize_filename "a.b" ≠ "a.b" ∧
    SplitterV20.sanitize_filename "a/b" = "a-b" :=
  ⟨rfl, by decide, rfl⟩

/-- C9 (amended): the v3.0 splitter persists every group with exactly the
original input schema — the bookkeeping `ShiftedDate` column is dropped
before `to_csv` — provided the input does not itself use the internal name
`ShiftedDate`; the v2.1 `split_csv_by_day`, by contrast, leaks its derived
`day_group` key column into every persisted group file
(`C9_persisted_schema_counterexample`). -/
theorem C9_persisted_schema_amended (cols : List String)
    (h : "ShiftedDate" ∉ cols) :
    SplitterV3.persistedGroupColumns cols = cols := by
  rw [SplitterV3.persistedGroupColumns, addColumn, if_neg h, dropColumn,
    List.filter_append]
  have h1 : cols.filter (fun x => x ≠ "ShiftedDate") = cols :=
    List.filter_eq_self.mpr fun a ha => by
      simp only [ne_eq, decide_not, Bool.not_eq_eq_eq_not, Bool.not_true,
        decide_eq_false_iff_not]
      exact fun e => h (e ▸ ha)
  rw [h1]
  simp

/-- Counterexample to C9 as stated: `split_csv_by_day` of v2.1 writes the
derived `day_group` partition-key column into the persisted group file. -/
theorem C9_persisted_schema_counterexample :
    SplitterV21.persistedGroupColumns ["Date", "BILLET_TEMP"]
      = ["Date", "BILLET_TEMP", "day_group"] ∧
    "day_group" ∈ SplitterV21.persistedGroupColumns ["Date", "BILLET_TEMP"] :=
  ⟨rfl, by decide⟩

/-- Witness for C9 (amended) at a concrete two-column schema. -/
theorem C9_persisted_schema_amended_witness :
    "ShiftedDate" ∉ ["Timestamp", "BILLET_TEMP"] ∧
    SplitterV3.persistedGroupColumns ["Timestamp", "BILLET_TEMP"]
      = ["Timestamp", "BILLET_TEMP"] :=
  ⟨by decide, C9_persisted_schema_amended ["Timestamp", "BILLET_TEMP"] (by decide)⟩
